import Mathlib

/-!
# Verification of the quick-qa geospatial QA dashboard

Shallow embedding of the core logic of the `danylaksono/quick-qa` repository:
the geometry codec (`safe_geometry_conversion` in `src/core/data_loader.py`
and the fallback parsing chain of the legacy `app.py` loader), the geometry
column detector (`detect_geometry_columns`), the QA statistics engine
(`calculate_qa_stats` in `src/core/qa_calculator.py`), the comparison tab's
change detection (`src/ui/tabs/comparison.py`), and the SQL tab's dataframe
preparation (`src/ui/tabs/sql.py`).

Python cell values are modelled by the inductive type `RawVal` (None/NaN,
`bytes`, `memoryview`, `str`, shapely geometry object).  The external
decoding primitives (`shapely.wkb.loads`, `shapely.wkt.loads`) are abstracted
by an oracle record `GeomOracle`; the control flow around them — which is
what the specification describes — is translated directly from the source.
-/

namespace QuickQA

/-! ## String utilities

Executable substring / prefix tests over character lists, modelling Python's
`in` (substring) and `str.startswith`. -/

/-- `charsStart hay needle`: `hay` starts with `needle` (character lists). -/
def charsStart : List Char → List Char → Bool
  | _, [] => true
  | [], _ :: _ => false
  | a :: as, b :: bs => a == b && charsStart as bs

/-- `charsHave hay needle`: `needle` occurs as a contiguous run inside `hay`,
modelling Python's `needle in hay`. -/
def charsHave : List Char → List Char → Bool
  | [], needle => needle.isEmpty
  | h :: t, needle => charsStart (h :: t) needle || charsHave t needle

/-- Python `needle in hay.lower()` for lowercase `needle`: case-insensitive
substring test. -/
def strHasSub (hay needle : String) : Bool :=
  charsHave (hay.data.map Char.toLower) needle.data

/-- The whitespace characters Python `str.strip()` removes. -/
def isSpaceChar (c : Char) : Bool :=
  c == ' ' || c == '\t' || c == '\n' || c == '\r' || c == '\x0b' || c == '\x0c'

/-- Python `s.strip()` on a character list. -/
def trimChars (l : List Char) : List Char :=
  ((l.dropWhile isSpaceChar).reverse.dropWhile isSpaceChar).reverse

/-! ## Raw cell values and decoding oracles -/

/-- An abstract decoded geometry object (identity only; the codec never
inspects the inside of a shapely geometry). -/
structure Geom where
  gid : Nat
deriving DecidableEq, Repr

/-- A raw Python cell value as it can appear in a column handed to the
geometry codec: missing (`None`/`NaN`), a `bytes` payload, a `memoryview`
over a payload, a text value, or an already-decoded shapely geometry. -/
inductive RawVal where
  | vnull
  | vbytes (b : List Nat)
  | vmem (b : List Nat)
  | vstr (s : String)
  | vgeom (g : Geom)
deriving DecidableEq, Repr

/-- Oracle for the external shapely parsing primitives: `wkbBytes` is
`shapely.wkb.loads` on a bytes payload, `wkbStr` is `shapely.wkb.loads`
applied directly to a `str`, `wktStr` is `shapely.wkt.loads` on a `str`.
`none` models the primitive raising an exception. -/
structure GeomOracle where
  wkbBytes : List Nat → Option Geom
  wkbStr : String → Option Geom
  wktStr : String → Option Geom

/-- Python `bytes(x)`: succeeds on `bytes` (copy) and `memoryview`
(materialise); raises `TypeError` on `str` (needs an encoding) and on
other objects. -/
def pyBytesOf : RawVal → Option (List Nat)
  | .vbytes b => some b
  | .vmem b => some b
  | _ => none

/-- Python `x.tobytes()`: only a `memoryview` exposes it; any other value
raises `AttributeError`. -/
def pyToBytes : RawVal → Option (List Nat)
  | .vmem b => some b
  | _ => none

/-- Python `x.encode('latin-1')`: only defined on `str`, and raises
`UnicodeEncodeError` when a character is outside U+0000..U+00FF. -/
def pyEncodeLatin1 : RawVal → Option (List Nat)
  | .vstr s => if s.data.all (fun c => c.toNat < 256) then some (s.data.map (fun c => c.toNat)) else none
  | _ => none

/-- `hasattr(x, 'wkt')`: true exactly for shapely geometry objects in this
value domain. -/
def hasWktAttr : RawVal → Bool
  | .vgeom _ => true
  | _ => false

/-- `shapely.wkb.loads(x)` applied to a raw cell value: bytes-like payloads
go to the bytes primitive, a `str` goes to the hex-string path of the
primitive, anything else raises. -/
def wkbLoadsRaw (o : GeomOracle) : RawVal → Option Geom
  | .vbytes b => o.wkbBytes b
  | .vmem b => o.wkbBytes b
  | .vstr s => o.wkbStr s
  | _ => none

/-- `shapely.wkt.loads(x)`: only a `str` is accepted. -/
def wktLoadsRaw (o : GeomOracle) : RawVal → Option Geom
  | .vstr s => o.wktStr s
  | _ => none

/-! ## The codec's attempt combinator

`series.apply(lambda x: f(x) if pd.notna(x) else None)`: nulls propagate to
null, and if `f` raises on any non-null cell the whole attempt raises
(modelled by `none`). -/

/-- One decoding attempt applied over a whole column: nulls decode to null;
the attempt fails (returns `none`) as soon as the per-value decoder fails on
a non-null value. -/
def applyAttempt (f : RawVal → Option Geom) : List RawVal → Option (List (Option Geom))
  | [] => some []
  | v :: t =>
    match v with
    | .vnull => (applyAttempt f t).map (fun r => none :: r)
    | w => match f w with
      | none => none
      | some g => (applyAttempt f t).map (fun r => some g :: r)

/-- Run a list of decoding attempts in order over the *same* original
column, returning the first attempt's result that raises no error, or
`none` when every attempt fails.  This is the specification's description
of the ordered-fallback codec ("stopping at the first attempt that raises
no error for any non-null value", "always restart from the original raw
column at each attempt boundary"). -/
def runAttempts (atts : List (RawVal → Option Geom)) (col : List RawVal) :
    Option (List (Option Geom)) :=
  match atts with
  | [] => none
  | a :: rest =>
    match applyAttempt a col with
    | some r => some r
    | none => runAttempts rest col

/-- The five decoding attempts of the specification's codec contract, in
order: raw WKB, `bytes(x)` then WKB, `x.tobytes()` then WKB,
`x.encode('latin-1')` then WKB, and WKT. -/
def attemptList (o : GeomOracle) : List (RawVal → Option Geom) :=
  [wkbLoadsRaw o,
   fun v => (pyBytesOf v).bind o.wkbBytes,
   fun v => (pyToBytes v).bind o.wkbBytes,
   fun v => (pyEncodeLatin1 v).bind o.wkbBytes,
   wktLoadsRaw o]

/-- The ordered-fallback codec exactly as the specification words it:
the five attempts in their fixed order, first success wins, every attempt
applied to the original raw column. -/
def specOrderedFallback (o : GeomOracle) (col : List RawVal) :
    Option (List (Option Geom)) :=
  runAttempts (attemptList o) col

/-! ## The legacy loader's parsing chain (`app.py`, lines 96–127)

Translated from the nested `try`/`except` blocks of `load_data`: each block
applies one decoder over `geom_series` (the original raw column) and falls
to the next block on any exception; the WKT block runs only when no WKB
block parsed.  The `dtype == 'object'` guards hold over this value domain
(a pandas column holding Python `None`/`bytes`/`memoryview`/`str`/geometry
objects always has dtype `object`). -/

def appParseChain (o : GeomOracle) (col : List RawVal) : Option (List (Option Geom)) :=
  match applyAttempt (wkbLoadsRaw o) col with
  | some r => some r
  | none =>
    match applyAttempt (fun v => (pyBytesOf v).bind o.wkbBytes) col with
    | some r => some r
    | none =>
      match applyAttempt (fun v => (pyToBytes v).bind o.wkbBytes) col with
      | some r => some r
      | none =>
        match applyAttempt (fun v => (pyEncodeLatin1 v).bind o.wkbBytes) col with
        | some r => some r
        | none => applyAttempt (wktLoadsRaw o) col

/-! ## The modular codec (`src/core/data_loader.py`, `safe_geometry_conversion`) -/

/-- `series.dropna().iloc[0]` — the first non-null value of a column, or
`none` when every value is null. -/
def firstNonNull : List RawVal → Option RawVal
  | [] => none
  | .vnull :: t => firstNonNull t
  | v :: _ => some v

/-- Result of `safe_geometry_conversion`: the output column (raw values:
pass-through keeps the input values, decoding produces geometry objects and
nulls), plus the warning condition — `some name` when
`st.warning("Could not parse geometry column '<name>' ...")` was emitted. -/
structure ConvResult where
  out : List RawVal
  warned : Option String
deriving DecidableEq, Repr

/-- Re-embed a decoded column into raw values (`None` stays null). -/
def toRawOut (r : List (Option Geom)) : List RawVal :=
  r.map (fun x => match x with | some g => .vgeom g | none => .vnull)

/-- `safe_geometry_conversion(series, column_name)` from
`src/core/data_loader.py` (lines 178–224), translated branch by branch:

* empty series → returned unchanged;
* `hasattr(series.iloc[0], 'wkt')` — the value at position 0, nulls
  included — → whole column passed through unchanged;
* otherwise (`series.dtype == 'object'` holds over this value domain) the
  first *non-null* value selects the branch: `bytes`/`memoryview` → try
  WKB on the raw values, then WKB on `bytes(x)`; `str` → try WKT; anything
  else falls through;
* if the taken branch fails (or no branch applies) → a column of `None`
  of the same length, with a warning naming the column. -/
def safe_geometry_conversion (o : GeomOracle) (col : List RawVal) (cname : String) :
    ConvResult :=
  match col with
  | [] => ⟨[], none⟩
  | v0 :: _ =>
    if hasWktAttr v0 then ⟨col, none⟩
    else
      match firstNonNull col with
      | some (.vbytes _) =>
        (match applyAttempt (wkbLoadsRaw o) col with
         | some r => ⟨toRawOut r, none⟩
         | none =>
           match applyAttempt (fun v => (pyBytesOf v).bind o.wkbBytes) col with
           | some r => ⟨toRawOut r, none⟩
           | none => ⟨List.replicate col.length .vnull, some cname⟩)
      | some (.vmem _) =>
        (match applyAttempt (wkbLoadsRaw o) col with
         | some r => ⟨toRawOut r, none⟩
         | none =>
           match applyAttempt (fun v => (pyBytesOf v).bind o.wkbBytes) col with
           | some r => ⟨toRawOut r, none⟩
           | none => ⟨List.replicate col.length .vnull, some cname⟩)
      | some (.vstr _) =>
        (match applyAttempt (wktLoadsRaw o) col with
         | some r => ⟨toRawOut r, none⟩
         | none => ⟨List.replicate col.length .vnull, some cname⟩)
      | _ => ⟨List.replicate col.length .vnull, some cname⟩

/-- Is the first non-null value byte-like (`bytes` or `memoryview`)?  This
is the `isinstance(first_val, (bytes, memoryview))` test of the source. -/
def isByteLikeVal : RawVal → Bool
  | .vbytes _ => true
  | .vmem _ => true
  | _ => false

/-- Is it a `str`? -/
def isStrVal : RawVal → Bool
  | .vstr _ => true
  | _ => false

/-- Is it null? -/
def isNullVal : RawVal → Bool
  | .vnull => true
  | _ => false

/-! ## The loader around the codec (`src/core/data_loader.py`, lines 94–99)

The DuckDB fallback branch of `load_data`: drop the raw geometry column,
attach the codec's output as the canonical `geometry` column.  A raw-valued
dataframe is a list of named columns. -/

/-- A raw dataframe: named columns of raw cell values. -/
abbrev RawDF := List (String × List RawVal)

/-- Column lookup (`df[col]`); an absent name yields the empty column. -/
def getColR (df : RawDF) (c : String) : List RawVal :=
  match df.find? (fun p => p.1 == c) with
  | some p => p.2
  | none => []

/-- `df_clean = result.drop(columns=[geom_col]); df_clean['geometry'] =
safe_geometry_conversion(result[geom_col], geom_col)` — the caller always
produces a dataframe, never fails. -/
def attachGeometry (o : GeomOracle) (df : RawDF) (geomCol : String) : RawDF :=
  let conv := safe_geometry_conversion o (getColR df geomCol) geomCol
  (df.filter (fun p => p.1 ≠ geomCol)) ++ [("geometry", conv.out)]

/-! ## Geometry column detector (`src/core/data_loader.py`, lines 344–385) -/

/-- The name patterns of the source: `['geom', 'shape', 'geometry', 'wkt',
'wkb', 'spatial']`. -/
def name_patterns : List String :=
  ["geom", "shape", "geometry", "wkt", "wkb", "spatial"]

/-- The specification's list of geometry-name substrings (it omits the
redundant `'geometry'`, which contains `'geom'`). -/
def specNamePatterns : List String :=
  ["geom", "shape", "wkt", "wkb", "spatial"]

/-- `any(pattern in col.lower() for pattern in name_patterns)`. -/
def nameHit (c : String) : Bool :=
  name_patterns.any (fun p => strHasSub c p)

/-- The same test with the specification's five substrings. -/
def specNameHit (c : String) : Bool :=
  specNamePatterns.any (fun p => strHasSub c p)

/-- The seven canonical WKT geometry type keywords. -/
def geom_keywords : List String :=
  ["POINT", "LINESTRING", "POLYGON", "MULTIPOINT", "MULTILINESTRING",
   "MULTIPOLYGON", "GEOMETRYCOLLECTION"]

/-- Model of `isinstance(val, str) and
val.strip().upper().startswith((...))`. -/
def isWktStartVal : RawVal → Bool
  | .vstr s => geom_keywords.any (fun k => charsStart ((trimChars s.data).map Char.toUpper) k.data)
  | _ => false

/-- The content heuristic for one column (second loop of
`detect_geometry_columns`): drop nulls, skip an empty column, sample the
first `min(5, len)` values, accept when the sample holds a byte-like value
or a WKT-looking string.  (`series.dtype == 'object'` holds over this value
domain.) -/
def contentCandidate (col : List RawVal) : Bool :=
  let series := col.filter (fun v => !isNullVal v)
  if series.isEmpty then false
  else
    let sample := series.take 5
    sample.any isByteLikeVal || sample.any isWktStartVal

/-- `detect_geometry_columns(df)`: the name pass in column order; only when
it finds nothing, the content pass in column order. -/
def detect_geometry_columns (df : RawDF) : List String :=
  let named := (df.filter (fun p => nameHit p.1)).map (fun p => p.1)
  if named.isEmpty then (df.filter (fun p => contentCandidate p.2)).map (fun p => p.1)
  else named

/-! ## QA statistics engine (`src/core/qa_calculator.py`, lines 33–44)

Attribute cells are modelled as `Option Int` (a null or a value); the
statistics only compare cells for equality, so an abstract value domain
with decidable equality suffices and `Int` keeps everything computable. -/

/-- An attribute dataframe: named columns of nullable cells, in column
order. -/
abbrev DF := List (String × List (Option Int))

/-- Column lookup (`df[col]`). -/
def getCol (df : DF) (c : String) : List (Option Int) :=
  match df.find? (fun p => p.1 == c) with
  | some p => p.2
  | none => []

/-- `series.nunique()` — pandas counts distinct values *excluding* nulls
(`dropna=True` is the default). -/
def nuniqueNonNull (col : List (Option Int)) : Nat :=
  ((col.filterMap id).dedup).length

/-- `series.isnull().sum()`. -/
def nullCount (col : List (Option Int)) : Nat :=
  (col.filter (fun v => v.isNone)).length

/-- `constant_columns` of `calculate_qa_stats`: the columns (in order)
with `nunique() == 1`. -/
def constant_columns (df : DF) : List String :=
  (df.filter (fun p => nuniqueNonNull p.2 == 1)).map (fun p => p.1)

/-- Stable insertion of an entry into a count-ascending list: the new entry
goes in front of the first entry with a greater-or-equal count. -/
def insAsc (x : String × Nat) : List (String × Nat) → List (String × Nat)
  | [] => [x]
  | y :: t => if x.2 ≤ y.2 then x :: y :: t else y :: insAsc x t

/-- Stable insertion sort, ascending by count. -/
def sortAsc : List (String × Nat) → List (String × Nat)
  | [] => []
  | x :: t => insAsc x (sortAsc t)

/-- `missing[missing > 0].sort_values(ascending=False)`: per-column null
counts, kept only when positive, then sorted descending.  pandas
`sort_values(ascending=False)` argsorts ascending (numpy argsort, which is
a stable insertion sort for short inputs) and *reverses* the result, so
entries with equal counts come out in reverse original order. -/
def missing_values (df : DF) : List (String × Nat) :=
  (sortAsc ((df.map (fun p => (p.1, nullCount p.2))).filter (fun q => 0 < q.2))).reverse

/-! ## Comparison tab: change detection (`src/ui/tabs/comparison.py`) -/

/-- Model of `str(col).lower() in ["id", "idx", "index"]`: the lowercased
name equals one of the three identifier names. -/
def isIdName (c : String) : Bool :=
  c.data.map Char.toLower == "id".data ||
  c.data.map Char.toLower == "idx".data ||
  c.data.map Char.toLower == "index".data

/-- `series.is_unique` — no duplicated values (nulls compare equal to each
other in pandas' duplicate detection). -/
def isUniqueCol (col : List (Option Int)) : Bool :=
  col.dedup.length == col.length

/-- `series.notnull().all()`. -/
def allNotNull (col : List (Option Int)) : Bool :=
  col.all (fun v => v.isSome)

/-- `find_id_candidates(df)` (lines 299–308): columns literally named
id/idx/index (case-insensitively) are appended *unconditionally*, then
every unique-and-non-null column not already listed. -/
def find_id_candidates (df : DF) : List String :=
  let nameCands := (df.filter (fun p => isIdName p.1)).map (fun p => p.1)
  ((df.filter (fun p => isUniqueCol p.2 && allNotNull p.2)).map (fun p => p.1)).foldl
    (fun acc c => if acc.contains c then acc else acc ++ [c]) nameCands

/-- The unique-and-non-null columns of a dataframe (lines 314–315). -/
def uniqueNonNullCols (df : DF) : List String :=
  (df.filter (fun p => isUniqueCol p.2 && allNotNull p.2)).map (fun p => p.1)

/-- Lines 310–316: intersect the candidate lists of both datasets; when
empty, fall back to the intersection of the plainly unique-and-non-null
columns.  (The source materialises the intersections as Python sets; only
membership is observable downstream, and we keep the first dataset's
order.) -/
def commonIdCandidates (df1 df2 : DF) : List String :=
  let c := (find_id_candidates df1).filter (fun n => (find_id_candidates df2).contains n)
  if c.isEmpty then
    (uniqueNonNullCols df1).filter (fun n => (uniqueNonNullCols df2).contains n)
  else c

/-- One detected change: the identifier value of the row, the column, and
the two sides' values. -/
structure ChangeEntry where
  key : Option Int
  col : String
  v1 : Option Int
  v2 : Option Int
deriving DecidableEq, Repr

/-- `compare_cols` (line 332): columns of the first dataset also present
in the second, excluding the reference column. -/
def compareCols (df1 df2 : DF) (ref : String) : List String :=
  (df1.map (fun p => p.1)).filter (fun c => (df2.map (fun p => p.1)).contains c && c ≠ ref)

/-- The index of the first row of a column holding the key `k` — the
matching right-frame row of the inner join (under the uniqueness guard the
first match is the only one). -/
def findKeyIdx (l : List (Option Int)) (k : Option Int) : Option Nat :=
  match l with
  | [] => none
  | a :: t => if a == k then some 0 else (findKeyIdx t k).map (fun j => j + 1)

/-- One cell of the change report: left row `i` of column `c` joins the
right row holding the same `ref` key (absent key → the row is not in the
inner join); the cell is reported when the two sides are not equal —
pandas `eq` together with the both-null escape is exactly `Option`
equality. -/
def changeCell (df1 df2 : DF) (ref c : String) (i : Nat) : Option ChangeEntry :=
  match findKeyIdx (getCol df2 ref) ((getCol df1 ref).getD i none) with
  | none => none
  | some j =>
    if (getCol df1 c).getD i none == (getCol df2 c).getD j none then none
    else some ⟨(getCol df1 ref).getD i none, c, (getCol df1 c).getD i none,
      (getCol df2 c).getD j none⟩

/-- The changed values of the inner join on `ref` (lines 333–352): for each
shared column in order, each merged row in left row order. -/
def changesFor (df1 df2 : DF) (ref : String) : List ChangeEntry :=
  (compareCols df1 df2 ref).flatMap (fun c =>
    (List.range (getCol df1 ref).length).filterMap (changeCell df1 df2 ref c))

/-- `ids2 - ids1` (line 355): identifier values present only in the second
dataset.  (The source materialises a sorted Python set; membership is what
the claims are about.) -/
def addedIds (df1 df2 : DF) (ref : String) : List (Option Int) :=
  ((getCol df2 ref).filter (fun k => !(getCol df1 ref).contains k)).dedup

/-- `ids1 - ids2` (line 356). -/
def removedIds (df1 df2 : DF) (ref : String) : List (Option Int) :=
  ((getCol df1 ref).filter (fun k => !(getCol df2 ref).contains k)).dedup

/-- Outcome of the change-detection panel for a chosen reference column. -/
inductive ChangeOutcome where
  | noCandidatesWarning
  | nullValueError (col : String)
  | notUniqueError (col : String)
  | detection (changes : List ChangeEntry) (added removed : List (Option Int))
deriving DecidableEq, Repr

/-- The guards of lines 326–356 for a selected reference column: a null on
either side → error message; non-unique on either side → error message;
otherwise the detection runs. -/
def change_detection (df1 df2 : DF) (ref : String) : ChangeOutcome :=
  if (getCol df1 ref).any (fun v => v.isNone) || (getCol df2 ref).any (fun v => v.isNone) then
    .nullValueError ref
  else if !isUniqueCol (getCol df1 ref) || !isUniqueCol (getCol df2 ref) then
    .notUniqueError ref
  else
    .detection (changesFor df1 df2 ref) (addedIds df1 df2 ref) (removedIds df1 df2 ref)

/-- The whole panel (lines 310–356), with the user's selection modelled as
a choice function over the offered candidate list: no common candidate →
the explicit warning, otherwise the guarded detection on the chosen
column. -/
def render_change_detection (df1 df2 : DF) (choose : List String → String) : ChangeOutcome :=
  let cands := commonIdCandidates df1 df2
  if cands.isEmpty then .noCandidatesWarning
  else change_detection df1 df2 (choose cands)

/-! ## SQL tab dataframe preparation (`src/ui/tabs/sql.py`, lines 17–24) -/

/-- Python `str(x)` on a cell value: `str(None) = "None"`; a shapely
geometry prints as its WKT and bytes via their repr, both abstracted by
oracles. -/
def pyStrVal (showG : Geom → String) (showB : List Nat → String) : RawVal → String
  | .vnull => "None"
  | .vstr s => s
  | .vgeom g => showG g
  | .vbytes b => showB b
  | .vmem b => showB b

/-- `df_for_duckdb = gdf.copy(); if 'geometry' in columns:
df_for_duckdb['geometry'] = df_for_duckdb['geometry'].astype(str)` —
`astype(str)` applies `str()` to every cell. -/
def df_for_duckdb (showG : Geom → String) (showB : List Nat → String) (df : RawDF) : RawDF :=
  df.map (fun p =>
    if p.1 == "geometry" then (p.1, p.2.map (fun v => .vstr (pyStrVal showG showB v)))
    else p)

/-! ## Concrete oracles and inputs used by counterexamples and witnesses -/

/-- An oracle on which every shapely primitive raises. -/
def oNone : GeomOracle :=
  { wkbBytes := fun _ => none
    wkbStr := fun _ => none
    wktStr := fun _ => none }

/-- An oracle on which WKB parsing succeeds exactly on the byte payload
`[1]` and both string primitives raise: it models a column holding WKB
bytes that were mis-read as latin-1 text. -/
def oCex : GeomOracle :=
  { wkbBytes := fun b => if b == [1] then some ⟨7⟩ else none
    wkbStr := fun _ => none
    wktStr := fun _ => none }

/-- A one-row column whose cell is the one-character string U+0001: its
latin-1 encoding is the byte payload `[1]`. -/
def cexCol : List RawVal := [.vstr "\x01"]

/-- The tail of the codec shared by every decoding branch: a successful
attempt result becomes the output column, failure becomes the all-null
column with the warning. -/
def codecOutcome (cname : String) (col : List RawVal) :
    Option (List (Option Geom)) → ConvResult
  | some r => ⟨toRawOut r, none⟩
  | none => ⟨List.replicate col.length .vnull, some cname⟩

/-! ## Helper lemmas on dataframes and list machinery -/

/-- In a dataframe whose column names are pairwise distinct, a name
determines its column. -/
theorem key_unique {β : Type} {df : List (String × β)}
    (h : (df.map (fun p => p.1)).Nodup) {a : String} {b c : β}
    (h1 : (a, b) ∈ df) (h2 : (a, c) ∈ df) : b = c := by
  induction df with
  | nil => cases h1
  | cons p t ih =>
    simp only [List.map_cons, List.nodup_cons] at h
    rcases List.mem_cons.mp h1 with h1 | h1 <;> rcases List.mem_cons.mp h2 with h2 | h2
    · rw [← h1] at h2; exact congrArg Prod.snd h2.symm
    · exfalso
      exact h.1 (List.mem_map.mpr ⟨(a, c), h2, by rw [← h1]⟩)
    · exfalso
      exact h.1 (List.mem_map.mpr ⟨(a, b), h1, by rw [← h2]⟩)
    · exact ih h.2 h1 h2

/-- Membership in the keys of a filtered dataframe. -/
theorem mem_filter_keys {β : Type} {P : String × β → Bool} {df : List (String × β)}
    {n : String} :
    (n ∈ (df.filter P).map (fun p => p.1)) ↔ ∃ c, (n, c) ∈ df ∧ P (n, c) = true := by
  constructor
  · intro h
    obtain ⟨p, hp, hfst⟩ := List.mem_map.mp h
    obtain ⟨hmem, hP⟩ := List.mem_filter.mp hp
    obtain ⟨p1, p2⟩ := p
    cases hfst
    exact ⟨p2, hmem, hP⟩
  · rintro ⟨c, hmem, hP⟩
    exact List.mem_map.mpr ⟨(n, c), List.mem_filter.mpr ⟨hmem, hP⟩, rfl⟩

/-- When the ordered fallback chain fails as a whole, every single attempt
fails on the column. -/
theorem runAttempts_none {atts : List (RawVal → Option Geom)} {col : List RawVal}
    (h : runAttempts atts col = none) : ∀ a ∈ atts, applyAttempt a col = none := by
  induction atts with
  | nil => intro a ha; cases ha
  | cons a t ih =>
    intro f hf
    rw [runAttempts] at h
    cases hh : applyAttempt a col with
    | some r => rw [hh] at h; cases h
    | none =>
      rw [hh] at h
      rcases List.mem_cons.mp hf with rfl | hft
      · exact hh
      · exact ih h _ hft

/-- The distinct-non-null count is 1 exactly when the column holds exactly
one distinct non-null value (any number of nulls allowed alongside). -/
theorem nunique_eq_one_iff (col : List (Option Int)) :
    nuniqueNonNull col = 1 ↔
      ∃ v : Int, some v ∈ col ∧ ∀ w : Int, some w ∈ col → w = v := by
  unfold nuniqueNonNull
  have hmem : ∀ x : Int, x ∈ (col.filterMap id).dedup ↔ some x ∈ col := by
    intro x
    rw [List.mem_dedup, List.mem_filterMap]
    constructor
    · rintro ⟨a, ha, rfl⟩; exact ha
    · intro h; exact ⟨some x, h, rfl⟩
  constructor
  · intro hlen
    obtain ⟨a, ha⟩ := List.length_eq_one.mp hlen
    refine ⟨a, (hmem a).mp (ha ▸ List.mem_singleton_self a), ?_⟩
    intro w hw
    have : w ∈ (col.filterMap id).dedup := (hmem w).mpr hw
    rw [ha] at this
    exact List.mem_singleton.mp this
  · rintro ⟨v, hv, hall⟩
    have h1 : v ∈ (col.filterMap id).dedup := (hmem v).mpr hv
    have h2 : ∀ x ∈ (col.filterMap id).dedup, x = v := by
      intro x hx
      exact hall x ((hmem x).mp hx)
    have h3 : ((col.filterMap id).dedup).Nodup := List.nodup_dedup _
    match hl : (col.filterMap id).dedup with
    | [] => rw [hl] at h1; cases h1
    | [a] => rfl
    | a :: b :: u =>
      exfalso
      rw [hl] at h2 h3
      have ha : a = v := h2 a (List.mem_cons_self a _)
      have hb : b = v := h2 b (List.mem_cons_of_mem a (List.mem_cons_self b u))
      rw [List.nodup_cons] at h3
      exact h3.1 (by rw [ha, ← hb]; exact List.mem_cons_self b u)

/-! ## Claim C1 — constant-column rule -/

/-- C1 (counterexample): a column holding exactly one distinct non-null
value (10) plus one null IS reported in `constant_columns`, because pandas
`nunique()` ignores nulls; the claim says such a two-state column is not
reported. -/
theorem C1_counterexample :
    constant_columns [("val", [some 10, none])] = ["val"] ∧
    nuniqueNonNull [some (10 : Int), none] = 1 ∧
    0 < nullCount [some (10 : Int), none] := by decide

/-- C1 (amended): a column appears in `constant_columns` if and only if it
has exactly one distinct non-null value — nulls are ignored entirely, so a
column with one non-null value plus nulls is constant and an all-null
column is not. -/
theorem C1_amended_constant_iff (df : DF) (name : String) (col : List (Option Int))
    (hnd : (df.map (fun p => p.1)).Nodup) (hmem : (name, col) ∈ df) :
    name ∈ constant_columns df ↔
      ∃ v : Int, some v ∈ col ∧ ∀ w : Int, some w ∈ col → w = v := by
  unfold constant_columns
  rw [mem_filter_keys]
  constructor
  · rintro ⟨c, hc, hP⟩
    have hcc : c = col := key_unique hnd hc hmem
    subst hcc
    exact (nunique_eq_one_iff c).mp (by simpa using hP)
  · intro h
    exact ⟨col, hmem, by simpa using (nunique_eq_one_iff col).mpr h⟩

/-- C1 witness: the amended rule applied to a concrete dataset — column
`b` with values `[5, null]` is constant. -/
theorem C1_witness :
    "b" ∈ constant_columns [("a", [some 1, some 2]), ("b", [some 5, none])] := by
  refine (C1_amended_constant_iff _ "b" [some 5, none] (by decide) (by decide)).mpr
    ⟨5, by decide, ?_⟩
  intro w hw
  simpa using hw

/-! ## Claim C9 — all-null columns are not constant -/

/-- C9 (confirmed): an all-null column is never reported as constant: its
pandas `nunique()` is 0, not 1. -/
theorem C9_all_null_not_constant (df : DF) (name : String) (col : List (Option Int))
    (hnd : (df.map (fun p => p.1)).Nodup) (hmem : (name, col) ∈ df)
    (hrows : col ≠ []) (hnull : ∀ v ∈ col, v = none) :
    name ∉ constant_columns df := by
  unfold constant_columns
  rw [mem_filter_keys]
  rintro ⟨c, hc, hP⟩
  have hcc : c = col := key_unique hnd hc hmem
  subst hcc
  obtain ⟨v, hv, -⟩ := (nunique_eq_one_iff c).mp (by simpa using hP)
  have := hnull _ hv
  simp at this

/-- C9 witness: concrete dataset with an all-null column `a`. -/
theorem C9_witness :
    "a" ∉ constant_columns [("a", [none, none]), ("b", [some 1, some 1])] :=
  C9_all_null_not_constant _ "a" [none, none] (by decide) (by decide) (by decide)
    (fun v hv => by simpa using hv)

/-! ## Claim C3 — pass-through of already-decoded columns -/

/-- C3 (counterexample): a column whose first non-null value is a typed
geometry object but whose position-0 value is null is NOT passed through
unchanged — the codec nulls the whole column out and warns, because the
pass-through test reads `series.iloc[0]`, not the first non-null value. -/
theorem C3_counterexample :
    safe_geometry_conversion oNone [RawVal.vnull, RawVal.vgeom ⟨1⟩] "g" =
      ⟨[RawVal.vnull, RawVal.vnull], some "g"⟩ ∧
    firstNonNull [RawVal.vnull, RawVal.vgeom ⟨1⟩] = some (RawVal.vgeom ⟨1⟩) ∧
    hasWktAttr (RawVal.vgeom ⟨1⟩) = true ∧
    ([RawVal.vnull, RawVal.vgeom ⟨1⟩] ≠ [RawVal.vnull, RawVal.vnull]) := by decide

/-- C3 (amended): the codec passes a column through unchanged exactly when
the value at position 0 — nulls included — exposes a well-known-text
representation; when nulls precede the first typed geometry value, the
column is instead converted to all nulls with a warning. -/
theorem C3_amended_pass_through (o : GeomOracle) (cname : String) (col : List RawVal) :
    (∀ v0 rest, col = v0 :: rest → hasWktAttr v0 = true →
      safe_geometry_conversion o col cname = ⟨col, none⟩)
  ∧ (∀ rest g, col = .vnull :: rest → firstNonNull col = some (.vgeom g) →
      safe_geometry_conversion o col cname =
        ⟨List.replicate col.length .vnull, some cname⟩) := by
  constructor
  · rintro v0 rest rfl hW
    simp [safe_geometry_conversion, hW]
  · rintro rest g rfl hf
    rw [safe_geometry_conversion, hf]
    simp [hasWktAttr]

/-- C3 witness: a column whose position-0 value is a typed geometry is
passed through unchanged. -/
theorem C3_witness :
    safe_geometry_conversion oNone [RawVal.vgeom ⟨2⟩, RawVal.vnull] "c" =
      ⟨[RawVal.vgeom ⟨2⟩, RawVal.vnull], none⟩ :=
  (C3_amended_pass_through oNone "c" [RawVal.vgeom ⟨2⟩, RawVal.vnull]).1
    (RawVal.vgeom ⟨2⟩) [RawVal.vnull] rfl rfl

/-! ## Claim C2 — the ordered fallback chain -/

/-- C2 (counterexample): on a column holding one latin-1 string whose
encoding is valid WKB, the five-attempt chain the claim describes decodes
it at attempt (4) — attempts (1)–(3) fail — but the modular codec
`safe_geometry_conversion` returns an all-null column with a warning: for
a string-typed first value it only ever tries WKT, never attempts (1)–(4). -/
theorem C2_counterexample :
    specOrderedFallback oCex cexCol = some [some ⟨7⟩] ∧
    runAttempts ((attemptList oCex).take 3) cexCol = none ∧
    safe_geometry_conversion oCex cexCol "g" =
      ⟨[RawVal.vnull], some "g"⟩ := by decide

/-- C2 (amended): the legacy loader chain of `app.py` runs exactly the five
attempts in the claimed fixed order, stopping at the first that raises no
error, each applied to the original raw column; the modular codec
(`safe_geometry_conversion`) instead selects attempts by the type of the
first non-null value — byte-like: attempts (1) then (2) only; string:
attempt (5) only — each attempt still applied to the original raw column. -/
theorem C2_amended_attempt_order (o : GeomOracle) (col : List RawVal) (cname : String) :
    appParseChain o col = specOrderedFallback o col
  ∧ (∀ v0 rest b, col = v0 :: rest → hasWktAttr v0 = false →
      firstNonNull col = some (.vbytes b) →
      safe_geometry_conversion o col cname =
        codecOutcome cname col (runAttempts ((attemptList o).take 2) col))
  ∧ (∀ v0 rest b, col = v0 :: rest → hasWktAttr v0 = false →
      firstNonNull col = some (.vmem b) →
      safe_geometry_conversion o col cname =
        codecOutcome cname col (runAttempts ((attemptList o).take 2) col))
  ∧ (∀ v0 rest s, col = v0 :: rest → hasWktAttr v0 = false →
      firstNonNull col = some (.vstr s) →
      safe_geometry_conversion o col cname =
        codecOutcome cname col (runAttempts [wktLoadsRaw o] col)) := by
  refine ⟨?_, ?_, ?_, ?_⟩
  · simp only [appParseChain, specOrderedFallback, attemptList, runAttempts]
    cases h5 : applyAttempt (wktLoadsRaw o) col <;> simp
  · rintro v0 rest b rfl hW hf
    rw [safe_geometry_conversion, hf]
    simp only [hW, Bool.false_eq_true, if_false]
    simp only [attemptList, List.take, runAttempts]
    cases h1 : applyAttempt (wkbLoadsRaw o) (v0 :: rest) <;>
      cases h2 : applyAttempt (fun v => (pyBytesOf v).bind o.wkbBytes) (v0 :: rest) <;>
      simp [codecOutcome]
  · rintro v0 rest b rfl hW hf
    rw [safe_geometry_conversion, hf]
    simp only [hW, Bool.false_eq_true, if_false]
    simp only [attemptList, List.take, runAttempts]
    cases h1 : applyAttempt (wkbLoadsRaw o) (v0 :: rest) <;>
      cases h2 : applyAttempt (fun v => (pyBytesOf v).bind o.wkbBytes) (v0 :: rest) <;>
      simp [codecOutcome]
  · rintro v0 rest s rfl hW hf
    rw [safe_geometry_conversion, hf]
    simp only [hW, Bool.false_eq_true, if_false]
    simp only [runAttempts]
    cases h1 : applyAttempt (wktLoadsRaw o) (v0 :: rest) <;> simp [codecOutcome]

/-- C2 witness: the amended description applied to a concrete string
column — the modular codec on `cexCol` runs exactly the single WKT
attempt, which fails, giving the all-null outcome. -/
theorem C2_witness :
    safe_geometry_conversion oCex cexCol "w" =
      codecOutcome "w" cexCol (runAttempts [wktLoadsRaw oCex] cexCol) :=
  (C2_amended_attempt_order oCex cexCol "w").2.2.2 (.vstr "\x01") [] "\x01" rfl rfl rfl

/-! ## Claim C6 — exhaustion is a soft failure -/

/-- C6 (confirmed): when every decoding attempt fails on a non-pass-through,
non-empty column, the codec returns an all-null column of the same length
and signals the warning naming the offending column; the caller still
assembles a dataframe whose `geometry` column is that all-null column. -/
theorem C6_exhaustion_soft (o : GeomOracle) (col : List RawVal) (cname : String)
    (hne : col ≠ []) (hW : hasWktAttr (col.headD .vnull) = false)
    (hfail : specOrderedFallback o col = none) :
    safe_geometry_conversion o col cname =
      ⟨List.replicate col.length .vnull, some cname⟩
  ∧ ∀ df : RawDF, getColR df cname = col →
      attachGeometry o df cname =
        df.filter (fun p => p.1 ≠ cname) ++
          [("geometry", List.replicate col.length .vnull)] := by
  have hall : ∀ a ∈ attemptList o, applyAttempt a col = none :=
    runAttempts_none hfail
  have h1 : applyAttempt (wkbLoadsRaw o) col = none :=
    hall _ (List.mem_cons_self _ _)
  have h2 : applyAttempt (fun v => (pyBytesOf v).bind o.wkbBytes) col = none :=
    hall _ (List.mem_cons_of_mem _ (List.mem_cons_self _ _))
  have h5 : applyAttempt (wktLoadsRaw o) col = none :=
    hall _ (List.mem_cons_of_mem _ (List.mem_cons_of_mem _ (List.mem_cons_of_mem _
      (List.mem_cons_of_mem _ (List.mem_cons_self _ _)))))
  have hmain : safe_geometry_conversion o col cname =
      ⟨List.replicate col.length .vnull, some cname⟩ := by
    match col, hne with
    | v0 :: rest, _ =>
      rw [safe_geometry_conversion]
      simp only [List.headD] at hW
      simp only [hW, Bool.false_eq_true, if_false]
      cases hf : firstNonNull (v0 :: rest) with
      | none => rfl
      | some fv =>
        cases fv <;> simp [h1, h2, h5]
  refine ⟨hmain, ?_⟩
  intro df hcol
  unfold attachGeometry
  rw [hcol, hmain]

/-- C6 witness: a concrete one-cell bytes column on which every primitive
raises — the loader still produces a dataframe with a null geometry. -/
theorem C6_witness :
    safe_geometry_conversion oNone [RawVal.vbytes [0]] "bad" =
      ⟨[RawVal.vnull], some "bad"⟩ ∧
    attachGeometry oNone [("bad", [RawVal.vbytes [0]])] "bad" =
      [("geometry", [RawVal.vnull])] := by
  have h := C6_exhaustion_soft oNone [RawVal.vbytes [0]] "bad"
    (by decide) (by decide) (by decide)
  refine ⟨h.1, ?_⟩
  have h2 := h.2 [("bad", [RawVal.vbytes [0]])] (by decide)
  rw [h2]
  decide

/-! ## Claim C10 — geometry exposed to SQL as text -/

/-- Column lookup on a cons cell of a raw dataframe. -/
theorem getColR_cons (q : String × List RawVal) (l : RawDF) (c : String) :
    getColR (q :: l) c = if (q.1 == c) = true then q.2 else getColR l c := by
  unfold getColR
  cases hq : q.1 == c
  · rw [List.find?_cons_of_neg _ (by simp [hq])]
    simp
  · rw [List.find?_cons_of_pos _ (by simp [hq])]
    simp

/-- The SQL preparation maps the geometry column cell-wise through
Python `str()`. -/
theorem getColR_df_for_duckdb (showG : Geom → String) (showB : List Nat → String)
    (df : RawDF) (gc : List RawVal)
    (hnd : (df.map (fun p => p.1)).Nodup) (hg : ("geometry", gc) ∈ df) :
    getColR (df_for_duckdb showG showB df) "geometry" =
      gc.map (fun v => .vstr (pyStrVal showG showB v)) := by
  induction df with
  | nil => cases hg
  | cons p t ih =>
    simp only [List.map_cons, List.nodup_cons] at hnd
    have step : df_for_duckdb showG showB (p :: t) =
        (if (p.1 == "geometry") = true
          then (p.1, p.2.map (fun v => RawVal.vstr (pyStrVal showG showB v))) else p)
          :: df_for_duckdb showG showB t := rfl
    by_cases hp : p.1 = "geometry"
    · have hpg : p = ("geometry", gc) := by
        rcases List.mem_cons.mp hg with h | h
        · exact h.symm
        · exfalso
          exact hnd.1 (hp ▸ List.mem_map.mpr ⟨("geometry", gc), h, rfl⟩)
      subst hpg
      rw [step]
      simp [getColR_cons]
    · have hg' : ("geometry", gc) ∈ t := by
        rcases List.mem_cons.mp hg with h | h
        · exact absurd (congrArg Prod.fst h.symm) hp
        · exact h
      have hpb : (p.1 == "geometry") = false := by simpa using hp
      rw [step, hpb]
      simp only [Bool.false_eq_true, if_false]
      rw [getColR_cons, hpb]
      simp only [Bool.false_eq_true, if_false]
      exact ih hnd.2 hg'

/-- C10 (confirmed): before registering the dataset for ad-hoc SQL, the
geometry column is passed through `astype(str)` row by row: a null geometry
becomes the literal text "None", no row of the registered geometry column
is null, and non-geometry columns are untouched. -/
theorem C10_geometry_astype_str (showG : Geom → String) (showB : List Nat → String)
    (df : RawDF) (gc : List RawVal)
    (hnd : (df.map (fun p => p.1)).Nodup) (hg : ("geometry", gc) ∈ df) :
    getColR (df_for_duckdb showG showB df) "geometry" =
      gc.map (fun v => .vstr (pyStrVal showG showB v))
  ∧ (∀ w ∈ getColR (df_for_duckdb showG showB df) "geometry", isNullVal w = false)
  ∧ (∀ i, i < gc.length → gc.getD i .vnull = .vnull →
      (getColR (df_for_duckdb showG showB df) "geometry").getD i (.vstr "x") =
        .vstr "None")
  ∧ (∀ p ∈ df, p.1 ≠ "geometry" → p ∈ df_for_duckdb showG showB df) := by
  have h1 := getColR_df_for_duckdb showG showB df gc hnd hg
  refine ⟨h1, ?_, ?_, ?_⟩
  · intro w hw
    rw [h1] at hw
    obtain ⟨v, -, rfl⟩ := List.mem_map.mp hw
    rfl
  · intro i hi hnull
    rw [h1]
    rw [List.getD_eq_getElem?_getD, List.getElem?_map]
    rw [List.getD_eq_getElem?_getD] at hnull
    cases hv : gc[i]? with
    | none => rw [List.getElem?_eq_none_iff] at hv; omega
    | some v =>
      rw [hv] at hnull
      simp only [Option.getD_some] at hnull
      subst hnull
      rfl
  · intro p hp hne
    refine List.mem_map.mpr ⟨p, hp, ?_⟩
    have : (p.1 == "geometry") = false := by simpa using hne
    simp [this]

/-- C10 witness: a concrete two-column dataset — the null geometry row is
exposed as the text "None". -/
theorem C10_witness :
    getColR (df_for_duckdb (fun _ => "G") (fun _ => "B")
        [("a", [RawVal.vnull]), ("geometry", [RawVal.vnull, RawVal.vgeom ⟨3⟩])])
        "geometry" =
      [RawVal.vstr "None", RawVal.vstr "G"] := by
  rw [(C10_geometry_astype_str (fun _ => "G") (fun _ => "B") _
    [RawVal.vnull, RawVal.vgeom ⟨3⟩] (by decide) (by decide)).1]
  rfl

/-! ## Claim C7 — detector: name pass first, then content pass -/

/-- Substring containment respects shortening the needle to one of its
prefixes. -/
theorem charsStart_trans (a b c : List Char) (h1 : charsStart a b = true)
    (h2 : charsStart b c = true) : charsStart a c = true := by
  induction c generalizing a b with
  | nil => cases a <;> rfl
  | cons x xs ih =>
    cases b with
    | nil => simp [charsStart] at h2
    | cons y ys =>
      cases a with
      | nil => simp [charsStart] at h1
      | cons z zs =>
        simp only [charsStart, Bool.and_eq_true, beq_iff_eq] at h1 h2 ⊢
        exact ⟨h1.1.trans h2.1, ih zs ys h1.2 h2.2⟩

/-- A text containing a needle contains every prefix of that needle. -/
theorem charsHave_mono (h n m : List Char) (hs : charsStart n m = true)
    (hh : charsHave h n = true) : charsHave h m = true := by
  induction h with
  | nil =>
    simp only [charsHave, List.isEmpty_iff] at hh
    subst hh
    cases m with
    | nil => rfl
    | cons x xs => simp [charsStart] at hs
  | cons a t ih =>
    simp only [charsHave, Bool.or_eq_true] at hh ⊢
    rcases hh with hh | hh
    · exact Or.inl (charsStart_trans _ _ _ hh hs)
    · exact Or.inr (ih hh)

/-- A name containing "geometry" contains "geom". -/
theorem strHasSub_geometry_geom {s : String} (h : strHasSub s "geometry" = true) :
    strHasSub s "geom" = true :=
  charsHave_mono _ _ _ (by decide) h

/-- The source's six name patterns and the specification's five name
substrings accept exactly the same column names. -/
theorem nameHit_eq_specNameHit (s : String) : nameHit s = specNameHit s := by
  unfold nameHit specNameHit name_patterns specNamePatterns
  cases hg : strHasSub s "geom"
  · have hgy : strHasSub s "geometry" = false := by
      cases hgy : strHasSub s "geometry"
      · rfl
      · exact absurd (strHasSub_geometry_geom hgy) (by simp [hg])
    simp [hg, hgy]
  · simp [hg]

/-- C7 (confirmed): detection returns all name-matching columns in original
column order; only when the name pass finds nothing does it fall back to
the content heuristic (up-to-5-value sampling for byte-like values or
WKT-keyword strings, embedded in `contentCandidate`); and the source's
pattern list is extensionally the specification's five substrings. -/
theorem C7_detector (df : RawDF) (hnd : (df.map (fun p => p.1)).Nodup) :
    (∀ name col, (name, col) ∈ df →
      (name ∈ detect_geometry_columns df ↔
        (nameHit name = true ∨
          ((∀ p ∈ df, nameHit p.1 = false) ∧ contentCandidate col = true))))
  ∧ List.Sublist (detect_geometry_columns df) (df.map (fun p => p.1))
  ∧ (∀ s : String, nameHit s = specNameHit s) := by
  refine ⟨?_, ?_, nameHit_eq_specNameHit⟩
  · intro name col hmem
    unfold detect_geometry_columns
    by_cases hcase : ((df.filter (fun p => nameHit p.1)).map (fun p => p.1)).isEmpty = true
    · rw [if_pos hcase]
      rw [mem_filter_keys]
      have hall : ∀ p ∈ df, nameHit p.1 = false := by
        rw [List.isEmpty_iff, List.map_eq_nil_iff, List.filter_eq_nil_iff] at hcase
        intro p hp
        simpa using hcase p hp
      constructor
      · rintro ⟨c, hc, hcand⟩
        have hcc : c = col := key_unique hnd hc hmem
        subst hcc
        exact Or.inr ⟨hall, hcand⟩
      · rintro (hhit | ⟨-, hcand⟩)
        · rw [hall (name, col) hmem] at hhit; cases hhit
        · exact ⟨col, hmem, hcand⟩
    · rw [if_neg hcase]
      rw [mem_filter_keys]
      have hne : ∃ p ∈ df, nameHit p.1 = true := by
        have hcase' : ((df.filter (fun p => nameHit p.1)).map (fun p => p.1)) ≠ [] := by
          intro h
          exact hcase (by rw [h]; rfl)
        obtain ⟨x, hx⟩ := List.exists_mem_of_ne_nil _ hcase'
        obtain ⟨p, hp, -⟩ := List.mem_map.mp hx
        obtain ⟨hpd, hph⟩ := List.mem_filter.mp hp
        exact ⟨p, hpd, hph⟩
      constructor
      · rintro ⟨c, -, hhit⟩
        exact Or.inl hhit
      · rintro (hhit | ⟨hall, -⟩)
        · exact ⟨col, hmem, hhit⟩
        · obtain ⟨p, hp, hph⟩ := hne
          rw [hall p hp] at hph
          cases hph
  · unfold detect_geometry_columns
    by_cases hcase : ((df.filter (fun p => nameHit p.1)).map (fun p => p.1)).isEmpty = true
    · rw [if_pos hcase]
      exact List.Sublist.map _ (List.filter_sublist df)
    · rw [if_neg hcase]
      exact List.Sublist.map _ (List.filter_sublist df)

/-- C7 witness: a concrete dataset where the name pass fires and shadows a
content candidate. -/
theorem C7_witness :
    "geom_wkb" ∈ detect_geometry_columns
      [("x", [RawVal.vbytes [1]]), ("geom_wkb", [RawVal.vnull])] := by
  refine ((C7_detector _ (by decide)).1 "geom_wkb" [RawVal.vnull] (by decide)).mpr
    (Or.inl (by decide))

/-! ## Claim C8 — null-count report ordering -/

/-- Inserting into the ascending sort permutes a cons. -/
theorem insAsc_perm (x : String × Nat) (l : List (String × Nat)) :
    List.Perm (insAsc x l) (x :: l) := by
  induction l with
  | nil => exact List.Perm.refl _
  | cons y t ih =>
    rw [insAsc]
    by_cases h : x.2 ≤ y.2
    · rw [if_pos h]
    · rw [if_neg h]
      exact (List.Perm.cons y ih).trans (List.Perm.swap x y t)

/-- The ascending sort is a permutation of its input. -/
theorem sortAsc_perm (l : List (String × Nat)) : List.Perm (sortAsc l) l := by
  induction l with
  | nil => exact List.Perm.refl _
  | cons x t ih =>
    rw [sortAsc]
    exact (insAsc_perm x (sortAsc t)).trans (List.Perm.cons x ih)

/-- Insertion preserves ascending sortedness. -/
theorem insAsc_pairwise (x : String × Nat) (l : List (String × Nat))
    (h : l.Pairwise (fun p q => p.2 ≤ q.2)) :
    (insAsc x l).Pairwise (fun p q => p.2 ≤ q.2) := by
  induction l with
  | nil => simp [insAsc]
  | cons y t ih =>
    rw [insAsc]
    rw [List.pairwise_cons] at h
    by_cases hxy : x.2 ≤ y.2
    · rw [if_pos hxy]
      rw [List.pairwise_cons]
      refine ⟨?_, List.pairwise_cons.mpr h⟩
      intro z hz
      rcases List.mem_cons.mp hz with rfl | hz
      · exact hxy
      · exact hxy.trans (h.1 z hz)
    · rw [if_neg hxy]
      rw [List.pairwise_cons]
      refine ⟨?_, ih h.2⟩
      intro z hz
      have hz' : z ∈ x :: t := (insAsc_perm x t).mem_iff.mp hz
      rcases List.mem_cons.mp hz' with rfl | hz'
      · exact le_of_not_le hxy
      · exact h.1 z hz'

/-- The ascending sort is sorted. -/
theorem sortAsc_pairwise (l : List (String × Nat)) :
    (sortAsc l).Pairwise (fun p q => p.2 ≤ q.2) := by
  induction l with
  | nil => simp [sortAsc]
  | cons x t ih =>
    rw [sortAsc]
    exact insAsc_pairwise x _ ih

/-- Stability of the insertion, key by key: the entries carrying one fixed
count are preserved in order (every entry skipped over has a strictly
smaller count). -/
theorem insAsc_filter_eq (x : String × Nat) (l : List (String × Nat)) (k : Nat) :
    (insAsc x l).filter (fun q => q.2 == k) =
      if x.2 == k then x :: l.filter (fun q => q.2 == k)
      else l.filter (fun q => q.2 == k) := by
  induction l with
  | nil =>
    rw [insAsc]
    cases hxk : (x.2 == k) <;> simp [List.filter, hxk]
  | cons y t ih =>
    rw [insAsc]
    by_cases hxy : x.2 ≤ y.2
    · rw [if_pos hxy]
      cases hxk : (x.2 == k) <;> simp [List.filter_cons, hxk]
    · rw [if_neg hxy]
      cases hxk : (x.2 == k)
      · simp [List.filter_cons, ih, hxk]
      · have hyk : (y.2 == k) = false := by
          have h1 : y.2 < x.2 := Nat.lt_of_not_le hxy
          have h2 : x.2 = k := by simpa using hxk
          simp only [beq_eq_false_iff_ne, ne_eq]
          omega
        simp [List.filter_cons, ih, hxk, hyk]

/-- Stability of the whole sort, key by key. -/
theorem sortAsc_filter_eq (l : List (String × Nat)) (k : Nat) :
    (sortAsc l).filter (fun q => q.2 == k) = l.filter (fun q => q.2 == k) := by
  induction l with
  | nil => rfl
  | cons x t ih =>
    rw [sortAsc, insAsc_filter_eq]
    cases hxk : (x.2 == k) <;> simp [List.filter_cons, hxk, ih]

/-- C8 (counterexample): two columns with one null each — the claim says
ties keep original column order (`a` before `b`), but the report lists `b`
before `a`: pandas `sort_values(ascending=False)` reverses the ascending
argsort, so equal counts come out in reverse original order. -/
theorem C8_counterexample :
    missing_values [("a", [none]), ("b", [none])] = [("b", 1), ("a", 1)] ∧
    missing_values [("a", [none]), ("b", [none])] ≠ [("a", 1), ("b", 1)] := by decide

/-- C8 (amended): the null-count report holds exactly the columns with a
positive null count, ordered by descending count; ties between equal
counts appear in *reverse* original column order (the descending sort is
implemented as an ascending argsort followed by a reversal). -/
theorem C8_amended_missing_values (df : DF) :
    List.Perm (missing_values df)
      ((df.map (fun p => (p.1, nullCount p.2))).filter (fun q => 0 < q.2))
  ∧ List.Pairwise (fun p q => q.2 ≤ p.2) (missing_values df)
  ∧ ∀ k : Nat, (missing_values df).filter (fun q => q.2 == k) =
      (((df.map (fun p => (p.1, nullCount p.2))).filter (fun q => 0 < q.2)).filter
        (fun q => q.2 == k)).reverse := by
  refine ⟨?_, ?_, ?_⟩
  · exact (List.reverse_perm _).trans (sortAsc_perm _)
  · rw [missing_values, List.pairwise_reverse]
    exact sortAsc_pairwise _
  · intro k
    rw [missing_values, List.filter_reverse, sortAsc_filter_eq]

/-! ## Claim C4 — identifier candidacy and the no-candidate message -/

/-- Membership in the duplicate-avoiding fold that appends the
uniqueness-qualifying columns to the name-based candidates. -/
theorem mem_foldl_insert (l : List String) (init : List String) (n : String) :
    (n ∈ l.foldl (fun acc c => if acc.contains c then acc else acc ++ [c]) init) ↔
      (n ∈ init ∨ n ∈ l) := by
  induction l generalizing init with
  | nil => simp
  | cons c t ih =>
    rw [List.foldl_cons, ih]
    by_cases hc : init.contains c = true
    · rw [if_pos hc]
      have hcm : c ∈ init := by
        have := hc
        unfold List.contains at this
        exact List.elem_iff.mp this
      constructor
      · rintro (h | h)
        · exact Or.inl h
        · exact Or.inr (List.mem_cons_of_mem c h)
      · rintro (h | h)
        · exact Or.inl h
        · rcases List.mem_cons.mp h with rfl | h
          · exact Or.inl hcm
          · exact Or.inr h
    · rw [if_neg hc]
      constructor
      · rintro (h | h)
        · rcases List.mem_append.mp h with h | h
          · exact Or.inl h
          · exact Or.inr (List.mem_cons.mpr (Or.inl (List.mem_singleton.mp h)))
        · exact Or.inr (List.mem_cons_of_mem c h)
      · rintro (h | h)
        · exact Or.inl (List.mem_append.mpr (Or.inl h))
        · rcases List.mem_cons.mp h with rfl | h
          · exact Or.inl (List.mem_append.mpr (Or.inr (List.mem_singleton.mpr rfl)))
          · exact Or.inr h

/-- A fully non-null column has no null to report. -/
theorem any_isNone_eq_false {col : List (Option Int)} (h : allNotNull col = true) :
    (col.any (fun v => v.isNone)) = false := by
  rw [List.any_eq_false]
  unfold allNotNull at h
  rw [List.all_eq_true] at h
  intro x hx
  have := h x hx
  cases x
  · cases this
  · simp

/-- C4 (counterexample): a column literally named `id` that is NOT unique
in either dataset is still offered as an identifier candidate (the name
match carries no eligibility check); only after selection does the
uniqueness guard reject it with an error message. -/
theorem C4_counterexample :
    commonIdCandidates [("id", [some 1, some 1])] [("id", [some 2, some 2])] = ["id"] ∧
    isUniqueCol (getCol [("id", [some 1, some 1])] "id") = false ∧
    render_change_detection [("id", [some 1, some 1])] [("id", [some 2, some 2])]
      (fun l => l.headD "") = .notUniqueError "id" := by decide

/-- C4 (amended): a column is offered as an identifier candidate when it is
literally named id/idx/index (case-insensitively, with NO eligibility
check) or when it is unique and non-null; when no common candidate exists
at all the panel shows the explicit no-candidate warning; and the
detection itself runs only on a column that is unique and non-null in both
datasets — an ineligible selection stops at an explicit error message. -/
theorem C4_amended_candidacy (df1 df2 : DF) :
    (∀ df : DF, ∀ name col, (df.map (fun p => p.1)).Nodup → (name, col) ∈ df →
      (name ∈ find_id_candidates df ↔
        (isIdName name = true ∨ (isUniqueCol col = true ∧ allNotNull col = true))))
  ∧ (∀ choose, commonIdCandidates df1 df2 = [] →
      render_change_detection df1 df2 choose = .noCandidatesWarning)
  ∧ (∀ ref ch ad rm, change_detection df1 df2 ref = .detection ch ad rm →
      allNotNull (getCol df1 ref) = true ∧ allNotNull (getCol df2 ref) = true ∧
      isUniqueCol (getCol df1 ref) = true ∧ isUniqueCol (getCol df2 ref) = true) := by
  refine ⟨?_, ?_, ?_⟩
  · intro df name col hnd hmem
    unfold find_id_candidates
    rw [mem_foldl_insert]
    constructor
    · rintro (h | h)
      · obtain ⟨c, -, hid⟩ := mem_filter_keys.mp h
        exact Or.inl hid
      · obtain ⟨c, hc, hq⟩ := mem_filter_keys.mp h
        have hcc : c = col := key_unique hnd hc hmem
        subst hcc
        rw [Bool.and_eq_true] at hq
        exact Or.inr hq
    · rintro (h | ⟨h1, h2⟩)
      · exact Or.inl (mem_filter_keys.mpr ⟨col, hmem, h⟩)
      · exact Or.inr (mem_filter_keys.mpr ⟨col, hmem, by rw [Bool.and_eq_true]; exact ⟨h1, h2⟩⟩)
  · intro choose hempty
    unfold render_change_detection
    rw [hempty]
    rfl
  · intro ref ch ad rm h
    unfold change_detection at h
    by_cases h1 : ((getCol df1 ref).any (fun v => v.isNone) ||
        (getCol df2 ref).any (fun v => v.isNone)) = true
    · rw [if_pos h1] at h; cases h
    · rw [if_neg h1] at h
      by_cases h2 : (!isUniqueCol (getCol df1 ref) || !isUniqueCol (getCol df2 ref)) = true
      · rw [if_pos h2] at h; cases h
      · rw [if_neg h2] at h
        rw [Bool.or_eq_true, not_or] at h1 h2
        refine ⟨?_, ?_, ?_, ?_⟩
        · unfold allNotNull
          rw [List.all_eq_true]
          intro x hx
          cases hxn : x with
          | some v => rfl
          | none =>
            exfalso
            apply h1.1
            rw [List.any_eq_true]
            exact ⟨x, hx, by rw [hxn]; rfl⟩
        · unfold allNotNull
          rw [List.all_eq_true]
          intro x hx
          cases hxn : x with
          | some v => rfl
          | none =>
            exfalso
            apply h1.2
            rw [List.any_eq_true]
            exact ⟨x, hx, by rw [hxn]; rfl⟩
        · cases hu : isUniqueCol (getCol df1 ref)
          · exact absurd (by rw [hu]; rfl) h2.1
          · rfl
        · cases hu : isUniqueCol (getCol df2 ref)
          · exact absurd (by rw [hu]; rfl) h2.2
          · rfl

/-- C4 witness: the amended candidacy rule at a concrete dataset — the
duplicated column named `id` is a candidate by name alone. -/
theorem C4_witness :
    "id" ∈ find_id_candidates [("id", [some 1, some 1]), ("v", [some 1, some 2])] := by
  refine ((C4_amended_candidacy [] []).1 _ "id" [some 1, some 1]
    (by decide) (by decide)).mpr (Or.inl (by decide))

/-! ## Claim C5 — the inner join of change detection -/

/-- An in-range default-read is a member of the list. -/
theorem getD_mem_of_lt {l : List (Option Int)} {m : Nat} (h : m < l.length) :
    l.getD m none ∈ l := by
  rw [List.getD_eq_getElem?_getD, List.getElem?_eq_getElem h]
  exact List.getElem_mem h

/-- What a successful key search means: an in-range index holding the key. -/
theorem findKeyIdx_some {l : List (Option Int)} {k : Option Int} {j : Nat}
    (h : findKeyIdx l k = some j) : j < l.length ∧ l.getD j none = k := by
  induction l generalizing j with
  | nil => cases h
  | cons a t ih =>
    rw [findKeyIdx] at h
    by_cases ha : (a == k) = true
    · rw [if_pos ha] at h
      cases h
      exact ⟨Nat.succ_pos _, by simpa using ha⟩
    · rw [if_neg ha] at h
      cases hm : findKeyIdx t k with
      | none => rw [hm] at h; cases h
      | some m =>
        rw [hm] at h
        simp only [Option.map_some'] at h
        obtain ⟨hlen, hget⟩ := ih hm
        cases h
        exact ⟨Nat.succ_lt_succ hlen, hget⟩

/-- A present key is found. -/
theorem findKeyIdx_mem {l : List (Option Int)} {k : Option Int} (h : k ∈ l) :
    ∃ j, findKeyIdx l k = some j := by
  induction l with
  | nil => cases h
  | cons a t ih =>
    rw [findKeyIdx]
    by_cases ha : (a == k) = true
    · rw [if_pos ha]
      exact ⟨0, rfl⟩
    · rw [if_neg ha]
      have hk : k ∈ t := by
        rcases List.mem_cons.mp h with rfl | h2
        · exact absurd (by simp) ha
        · exact h2
      obtain ⟨m, hm⟩ := ih hk
      exact ⟨m + 1, by rw [hm]; rfl⟩

/-- On a duplicate-free column the key search returns exactly the index
holding the key. -/
theorem findKeyIdx_of_nodup {l : List (Option Int)} (hnd : l.Nodup) {k : Option Int}
    {j : Nat} (hj : j < l.length) (hget : l.getD j none = k) :
    findKeyIdx l k = some j := by
  induction l generalizing j with
  | nil => simp at hj
  | cons a t ih =>
    rw [List.nodup_cons] at hnd
    rw [findKeyIdx]
    cases j with
    | zero =>
      rw [if_pos (by simpa using hget)]
    | succ m =>
      have hm : m < t.length := Nat.lt_of_succ_lt_succ hj
      have hgt : t.getD m none = k := hget
      have hkt : k ∈ t := hgt ▸ getD_mem_of_lt hm
      have ha : (a == k) = false := by
        cases hak : (a == k)
        · rfl
        · exfalso
          have haa : a = k := by simpa using hak
          exact hnd.1 (haa ▸ hkt)
      rw [if_neg (by simp [ha])]
      rw [ih hnd.2 hm hgt]
      rfl

/-- The uniqueness check of pandas means the column has no duplicates. -/
theorem isUniqueCol_nodup {col : List (Option Int)} (h : isUniqueCol col = true) :
    col.Nodup := by
  unfold isUniqueCol at h
  have hlen : col.dedup.length = col.length := by simpa using h
  have heq : col.dedup = col := (List.dedup_sublist col).eq_of_length hlen
  rw [← heq]
  exact List.nodup_dedup col

/-- Containment is membership. -/
theorem contains_iff_mem {α : Type} [BEq α] [LawfulBEq α] {l : List α} {k : α} :
    l.contains k = true ↔ k ∈ l := by
  unfold List.contains
  exact List.elem_iff

/-- C5 (confirmed): for a reference column unique and non-null on both
sides, the panel runs the detection; every change entry comes from a key
present in both datasets with genuinely differing values (`Option`
inequality: not equal and not both null); every such differing cell of the
inner join is reported; and the added/removed sets are exactly the keys
present on one side only, disjoint from the keys of change entries. -/
theorem C5_change_detect_join (df1 df2 : DF) (ref : String)
    (hnn1 : allNotNull (getCol df1 ref) = true)
    (hnn2 : allNotNull (getCol df2 ref) = true)
    (hu1 : isUniqueCol (getCol df1 ref) = true)
    (hu2 : isUniqueCol (getCol df2 ref) = true) :
    change_detection df1 df2 ref =
      .detection (changesFor df1 df2 ref) (addedIds df1 df2 ref) (removedIds df1 df2 ref)
  ∧ (∀ e ∈ changesFor df1 df2 ref,
      e.key ∈ getCol df1 ref ∧ e.key ∈ getCol df2 ref ∧
      e.col ∈ compareCols df1 df2 ref ∧ e.v1 ≠ e.v2)
  ∧ (∀ c ∈ compareCols df1 df2 ref, ∀ i j : Nat,
      i < (getCol df1 ref).length → j < (getCol df2 ref).length →
      (getCol df1 ref).getD i none = (getCol df2 ref).getD j none →
      (getCol df1 c).getD i none ≠ (getCol df2 c).getD j none →
      (⟨(getCol df1 ref).getD i none, c, (getCol df1 c).getD i none,
        (getCol df2 c).getD j none⟩ : ChangeEntry) ∈ changesFor df1 df2 ref)
  ∧ (∀ k : Option Int,
      (k ∈ addedIds df1 df2 ref ↔ (k ∈ getCol df2 ref ∧ k ∉ getCol df1 ref)) ∧
      (k ∈ removedIds df1 df2 ref ↔ (k ∈ getCol df1 ref ∧ k ∉ getCol df2 ref)))
  ∧ (∀ e ∈ changesFor df1 df2 ref,
      e.key ∉ addedIds df1 df2 ref ∧ e.key ∉ removedIds df1 df2 ref) := by
  have hmemAdd : ∀ k : Option Int,
      k ∈ addedIds df1 df2 ref ↔ (k ∈ getCol df2 ref ∧ k ∉ getCol df1 ref) := by
    intro k
    unfold addedIds
    rw [List.mem_dedup, List.mem_filter]
    constructor
    · rintro ⟨h1, h2⟩
      rw [Bool.not_eq_true'] at h2
      refine ⟨h1, fun hmem => ?_⟩
      rw [contains_iff_mem.mpr hmem] at h2
      cases h2
    · rintro ⟨h1, h2⟩
      refine ⟨h1, ?_⟩
      rw [Bool.not_eq_true']
      cases hcc : (getCol df1 ref).contains k
      · rfl
      · exact absurd (contains_iff_mem.mp hcc) h2
  have hmemRem : ∀ k : Option Int,
      k ∈ removedIds df1 df2 ref ↔ (k ∈ getCol df1 ref ∧ k ∉ getCol df2 ref) := by
    intro k
    unfold removedIds
    rw [List.mem_dedup, List.mem_filter]
    constructor
    · rintro ⟨h1, h2⟩
      rw [Bool.not_eq_true'] at h2
      refine ⟨h1, fun hmem => ?_⟩
      rw [contains_iff_mem.mpr hmem] at h2
      cases h2
    · rintro ⟨h1, h2⟩
      refine ⟨h1, ?_⟩
      rw [Bool.not_eq_true']
      cases hcc : (getCol df2 ref).contains k
      · rfl
      · exact absurd (contains_iff_mem.mp hcc) h2
  have hsound : ∀ e ∈ changesFor df1 df2 ref,
      e.key ∈ getCol df1 ref ∧ e.key ∈ getCol df2 ref ∧
      e.col ∈ compareCols df1 df2 ref ∧ e.v1 ≠ e.v2 := by
    intro e he
    unfold changesFor at he
    rw [List.mem_flatMap] at he
    obtain ⟨c, hc, he⟩ := he
    rw [List.mem_filterMap] at he
    obtain ⟨i, hi, hbody⟩ := he
    rw [List.mem_range] at hi
    unfold changeCell at hbody
    split at hbody
    · cases hbody
    · rename_i j hfind
      split at hbody
      · cases hbody
      · rename_i hab
        have hee : e = ⟨(getCol df1 ref).getD i none, c, (getCol df1 c).getD i none,
            (getCol df2 c).getD j none⟩ := by
          cases hbody
          rfl
        subst hee
        obtain ⟨hjlen, hjget⟩ := findKeyIdx_some hfind
        refine ⟨getD_mem_of_lt hi, ?_, hc, ?_⟩
        · rw [← hjget]
          exact getD_mem_of_lt hjlen
        · simpa using hab
  refine ⟨?_, hsound, ?_, fun k => ⟨hmemAdd k, hmemRem k⟩, ?_⟩
  · have hcond1 : ((getCol df1 ref).any (fun v => v.isNone) ||
        (getCol df2 ref).any (fun v => v.isNone)) = false := by
      rw [any_isNone_eq_false hnn1, any_isNone_eq_false hnn2]
      rfl
    have hcond2 : (!isUniqueCol (getCol df1 ref) ||
        !isUniqueCol (getCol df2 ref)) = false := by
      rw [hu1, hu2]
      rfl
    unfold change_detection
    rw [if_neg (by rw [hcond1]; simp), if_neg (by rw [hcond2]; simp)]
  · intro c hc i j hi hj hkey hne
    unfold changesFor
    rw [List.mem_flatMap]
    refine ⟨c, hc, ?_⟩
    rw [List.mem_filterMap]
    refine ⟨i, List.mem_range.mpr hi, ?_⟩
    unfold changeCell
    have hfind : findKeyIdx (getCol df2 ref) ((getCol df1 ref).getD i none) = some j :=
      findKeyIdx_of_nodup (isUniqueCol_nodup hu2) hj hkey.symm
    rw [hfind]
    have hab : ((getCol df1 c).getD i none == (getCol df2 c).getD j none) = false := by
      simpa using hne
    simp only [hab, Bool.false_eq_true, if_false]
  · intro e he
    obtain ⟨h1, h2, -, -⟩ := hsound e he
    exact ⟨fun hadd => ((hmemAdd e.key).mp hadd).2 h1,
      fun hrem => ((hmemRem e.key).mp hrem).2 h2⟩

/-- C5 witness: the scenario of the specification — datasets sharing
`id`/`value`, values `[1,2,3]` against `[1,9,3]` keyed by `[1,2,3]` against
`[1,2,4]`: the single change at key 2 is detected. -/
theorem C5_witness :
    (⟨some 2, "value", some 2, some 9⟩ : ChangeEntry) ∈
      changesFor [("id", [some 1, some 2, some 3]), ("value", [some 1, some 2, some 3])]
        [("id", [some 1, some 2, some 4]), ("value", [some 1, some 9, some 3])] "id" := by
  exact (C5_change_detect_join _ _ "id" (by decide) (by decide) (by decide)
    (by decide)).2.2.1 "value" (by decide) 1 1 (by decide) (by decide) (by decide)
    (by decide)

end QuickQA
